import Mathlib

/-!
# P-Ton Technology landing page: page composition and mount shim

A shallow embedding of `src/src/App.jsx` and `src/src/main.jsx`.

* A JSX expression is embedded as the markup tree it evaluates to: an element
  carries its tag, its props in source order and its children; JSX text is a
  text node. A JSX comment container and whitespace that contains a line break
  produce no child, as the JSX rules prescribe.
* The five image imports of `App.jsx` are resolved by the bundler; they are the
  fields of `Assets`, the module environment that `App` closes over.
* The function `App` is also kept in its source form, as an arrow function over
  JSX syntax that is evaluated in a scope of parameters, module bindings and
  mutable globals; evaluating it gives the tree above.
* The host document is a markup tree as well, and the mount shim is a state
  passing function on it.
-/

namespace PTon

/-- Markup tree: a text node or an element with tag, props and children. -/
inductive Node where
  | text (data : String)
  | elem (tag : String) (props : List (String × String)) (children : List Node)
  deriving Repr

namespace Node

/-- Tag of an element, `none` for a text node. -/
def tag : Node → Option String
  | text _ => none
  | elem t _ _ => some t

/-- Value of the prop `name`, `none` when absent or on a text node. -/
def prop (name : String) : Node → Option String
  | text _ => none
  | elem _ ps _ => ps.lookup name

/-- The `className` prop. -/
def className (n : Node) : Option String := n.prop "className"

/-- Children of an element, `[]` for a text node. -/
def children : Node → List Node
  | text _ => []
  | elem _ _ cs => cs

/-- Whether the node is an element with tag `t`. -/
def hasTag (t : String) (n : Node) : Bool := n.tag == some t

/-- Whether the node is a heading element (`h1` or `h2`). -/
def isHeading (n : Node) : Bool := n.hasTag "h1" || n.hasTag "h2"

/-- Whether the node is a paragraph element. -/
def isParagraph (n : Node) : Bool := n.hasTag "p"

mutual
/-- Concatenated text of a node and all its descendants, in document order. -/
def textContent : Node → String
  | text s => s
  | elem _ _ cs => textContentList cs
/-- Concatenated text of a list of nodes. -/
def textContentList : List Node → String
  | [] => ""
  | c :: cs => textContent c ++ textContentList cs
end

mutual
/-- All nodes of the subtree of a node (the node included), in document order. -/
def subtree : Node → List Node
  | text s => [text s]
  | elem t ps cs => elem t ps cs :: subtreeList cs
/-- All nodes of the subtrees of a list of nodes, in document order. -/
def subtreeList : List Node → List Node
  | [] => []
  | c :: cs => subtree c ++ subtreeList cs
end

/-- All nodes strictly below a node, in document order. -/
def descendants (n : Node) : List Node := subtreeList n.children

/-- The elements with tag `t` strictly below a node. -/
def descendantsByTag (t : String) (n : Node) : List Node :=
  n.descendants.filter (hasTag t)

/-- The heading elements strictly below a node. -/
def headings (n : Node) : List Node := n.descendants.filter isHeading

/-- The heading and paragraph elements strictly below a node. -/
def headingsOrParagraphs (n : Node) : List Node :=
  n.descendants.filter (fun c => c.isHeading || c.isParagraph)

/-- Number of elements with tag `t` in a whole tree. -/
def countTag (t : String) (n : Node) : Nat := n.subtree.countP (hasTag t)

end Node

/-- The five image imports of `App.jsx`, as resolved by the bundler. -/
structure Assets where
  HeroImage : String
  MidImage : String
  MeetTeam : String
  SuccessMetrics : String
  ContactForm : String
  deriving Repr, DecidableEq

/-- The component `App` of `App.jsx`: the tree its JSX evaluates to. -/
def App (a : Assets) : Node :=
  .elem "div" [("className", "container")] [
    .elem "section" [("className", "hero")] [
      .elem "h1" [("className", "hero-title")]
        [.text "Let's create something great together."],
      .elem "img" [("src", a.HeroImage), ("alt", "Hero"), ("className", "hero-image")] []],
    .elem "section" [("className", "who-we-are")] [
      .elem "h2" [("className", "section-title")] [.text "Who we are"],
      .elem "p" [("className", "section-description")]
        [.text "We work hand-in-hand with our clients to ensure their digital transformation is positioned for long-term success."],
      .elem "img" [("src", a.MidImage), ("alt", "Who We Are"), ("className", "section-image")] []],
    .elem "section" [("className", "team")] [
      .elem "h2" [("className", "section-title")]
        [.text "Meetttttt the heroes behind the magic"],
      .elem "img" [("src", a.MeetTeam), ("alt", "Team"), ("className", "team-image")] []],
    .elem "section" [("className", "success-metrics")] [
      .elem "img" [("src", a.SuccessMetrics), ("alt", "Metrics"), ("className", "metrics-image")] []],
    .elem "section" [("className", "contact-form")] [
      .elem "h2" [("className", "section-title")] [.text "We'd love to hear from you"],
      .elem "img" [("src", a.ContactForm), ("alt", "Contact Form"), ("className", "form-image")] []]]

/-- The sections of the page: the `section` children of the tree of `App`. -/
def sections (a : Assets) : List Node :=
  (App a).children.filter (Node.hasTag "section")

/-- The section of the page with a given `className`. -/
def sectionsNamed (cls : String) (a : Assets) : List Node :=
  (sections a).filter (fun s => s.className == some cls)

/-- Tag and text of every heading of the sections with a given `className`. -/
def headingsOf (cls : String) (a : Assets) : List (Option String × String) :=
  (sectionsNamed cls a).flatMap (fun s => s.headings.map (fun h => (h.tag, h.textContent)))

/-- Whether all five imported asset handles are non-empty. -/
def Assets.allNonEmpty (a : Assets) : Prop :=
  a.HeroImage ≠ "" ∧ a.MidImage ≠ "" ∧ a.MeetTeam ≠ "" ∧ a.SuccessMetrics ≠ "" ∧
    a.ContactForm ≠ ""

/-- The `src` and `alt` props of every `img` element of a section. -/
def images (s : Node) : List (Option String × Option String) :=
  (s.descendantsByTag "img").map (fun i => (i.prop "src", i.prop "alt"))

/-- Concrete asset handles, the paths of the five imports. -/
def sampleAssets : Assets where
  HeroImage := "./assets/hero_section.png"
  MidImage := "./assets/Mid_Image.png"
  MeetTeam := "./assets/Meet_the_team.png"
  SuccessMetrics := "./assets/Success_Metrics.png"
  ContactForm := "./assets/Contact_Form.png"

/-! ## Host document and mount shim (`main.jsx`) -/

/-- Address of a node in the host document: the child indices leading from
the document element to it. -/
abbrev Path := List Nat

/-- Apply `f` to the `i`-th node of a list, leaving the others as they are. -/
def modifyAt (f : Node → Node) : Nat → List Node → List Node
  | _, [] => []
  | 0, c :: cs => f c :: cs
  | i + 1, c :: cs => c :: modifyAt f i cs

namespace Node

/-- The node at a path, `none` when the path leaves the tree. -/
def nodeAt : Path → Node → Option Node
  | [], n => some n
  | _ :: _, text _ => none
  | i :: p, elem _ _ cs =>
    match cs[i]? with
    | some c => nodeAt p c
    | none => none

/-- Replace the children of the element at a path; every other node, and the
tag and props of that element, stay as they are. -/
def setChildren : Path → List Node → Node → Node
  | _, _, text s => text s
  | [], ks, elem t ps _ => elem t ps ks
  | i :: p, ks, elem t ps cs => elem t ps (modifyAt (setChildren p ks) i cs)

mutual
/-- Path of the first element, in document order, whose `id` prop is `id`. -/
def findId (id : String) : Node → Option Path
  | text _ => none
  | elem _ ps cs =>
    if ps.lookup "id" = some id then some [] else findIdList id 0 cs
/-- Search the nodes of a list, the first of which has index `i`. -/
def findIdList (id : String) (i : Nat) : List Node → Option Path
  | [] => none
  | c :: cs =>
    match findId id c with
    | some p => some (i :: p)
    | none => findIdList id (i + 1) cs
end

end Node

/-- Element values that `main.jsx` builds: the strict-mode wrapper with its
children, and the component element `<App />`. -/
inductive ReactElement where
  | strictMode (children : List ReactElement)
  | app
  deriving Repr

/-- The fatal error of the mount shim: the target container is no element. -/
inductive MountError where
  | targetNotDomElement
  deriving Repr, DecidableEq

/-- A root created for a container element of the host document. -/
structure Root where
  container : Path
  deriving Repr, DecidableEq

/-- Calls of `main.jsx` into the host environment. -/
inductive HostCall where
  | getElementById (id : String)
  | createRoot (container : Option Path)
  | render (root : Root) (element : ReactElement)
  deriving Repr

/-- State of the host environment: the document and the calls made so far. -/
structure Host where
  doc : Node
  calls : List HostCall
  deriving Repr

mutual
/-- Modelled from the spec: the host nodes an element value renders to. It
stands for the renderer of `react-dom`, which is not in the repository: the
strict-mode wrapper adds no node of its own, and `<App />` renders to the tree
that `App` returns. -/
def hostNodes (a : Assets) : ReactElement → List Node
  | .strictMode cs => hostNodesList a cs
  | .app => [App a]
/-- Modelled from the spec: the host nodes of a list of element values (part
of the renderer of `react-dom`, which is not in the repository). -/
def hostNodesList (a : Assets) : List ReactElement → List Node
  | [] => []
  | c :: cs => hostNodes a c ++ hostNodesList a cs
end

/-- Modelled from the spec: `document.getElementById` of the host environment,
which is not in the repository: it locates a single element by its identifier
and changes nothing. -/
def getElementById (id : String) (h : Host) : Option Path × Host :=
  (h.doc.findId id, { h with calls := h.calls ++ [.getElementById id] })

/-- Modelled from the spec: `ReactDOM.createRoot` of `react-dom/client`, which
is not in the repository: it fails fatally when the identifier did not resolve
to an existing host element, and writes nothing to the document. -/
def createRoot (container : Option Path) (h : Host) : Except MountError Root × Host :=
  let h1 : Host := { h with calls := h.calls ++ [.createRoot container] }
  match container with
  | none => (.error .targetNotDomElement, h1)
  | some p => (.ok ⟨p⟩, h1)

/-- Modelled from the spec: `render` of a root of `react-dom/client`, which is
not in the repository: it attaches the rendered output to the container, whose
content becomes the host nodes of the element. -/
def Root.render (a : Assets) (root : Root) (element : ReactElement) (h : Host) : Host :=
  { doc := h.doc.setChildren root.container (hostNodes a element)
    calls := h.calls ++ [.render root element] }

/-- The argument of `render` in `main.jsx`:
`<React.StrictMode><App /></React.StrictMode>`. -/
def mainElement : ReactElement := .strictMode [.app]

/-- The module body of `main.jsx`:
`ReactDOM.createRoot(document.getElementById("root")).render(...)`. -/
def main (a : Assets) (h : Host) : Except MountError Unit × Host :=
  match getElementById "root" h with
  | (target, h1) =>
    match createRoot target h1 with
    | (.error e, h2) => (.error e, h2)
    | (.ok root, h2) => (.ok (), root.render a mainElement h2)

/-- Run the mount shim on a host document, with an empty call log. -/
def mount (a : Assets) (doc : Node) : Except MountError Unit × Host :=
  main a { doc := doc, calls := [] }

/-! ## Source form of `App.jsx`

The function `App` as it is written: an arrow function without parameters whose
body is one `return` of a JSX expression. The JSX is kept as syntax, with its
raw text, its comment containers and its identifier references, and is
evaluated in a scope of parameters, module bindings and mutable globals. -/

/-- Values an identifier can be bound to. -/
inductive JsValue where
  | undefined
  | str (s : String)
  deriving Repr, DecidableEq

/-- Bindings of identifiers to values. -/
abbrev Env := List (String × JsValue)

/-- Scopes an identifier is resolved in, innermost first: the parameters of
the function, the bindings of the module (its imports) and the globals, which
are the mutable state shared by all calls. -/
structure Scope where
  locals : Env
  moduleEnv : Env
  globals : Env

/-- Resolve an identifier: parameters shadow module bindings, which shadow
globals; `none` is a reference error. -/
def Scope.resolve (sc : Scope) (name : String) : Option JsValue :=
  match sc.locals.lookup name with
  | some v => some v
  | none =>
    match sc.moduleEnv.lookup name with
    | some v => some v
    | none => sc.globals.lookup name

/-- Expressions in attribute position: a string literal `"..."` or an
identifier in a container `{Name}`. -/
inductive Expr where
  | lit (s : String)
  | ident (name : String)
  deriving Repr, DecidableEq

/-- Value of an expression in a scope. -/
def Expr.eval (sc : Scope) : Expr → Option JsValue
  | .lit s => some (.str s)
  | .ident x => sc.resolve x

/-- JSX syntax: an element with attributes and children, raw text, or a
container that holds only a comment. -/
inductive Jsx where
  | element (tag : String) (attrs : List (String × Expr)) (children : List Jsx)
  | text (raw : String)
  | comment
  deriving Repr

/-- Whether a character is a line break. -/
def isLineBreak (c : Char) : Bool := c.toNat == 10 || c.toNat == 13

/-- Whether a character is a space or a tab. -/
def isBlank (c : Char) : Bool := c.toNat == 32 || c.toNat == 9

/-- Split raw text into its lines. -/
def splitLines : List Char → List (List Char)
  | [] => [[]]
  | c :: cs =>
    if isLineBreak c then [] :: splitLines cs
    else
      match splitLines cs with
      | l :: ls => (c :: l) :: ls
      | [] => [[c]]

/-- Index of the last line that has a character other than space and tab,
`0` when there is none. -/
def lastNonEmptyLine (lines : List (List Char)) : Nat :=
  lines.enum.foldl (fun acc il => if il.2.any (fun c => !isBlank c) then il.1 else acc) 0

/-- One line of JSX text: tabs become spaces, leading spaces go unless the
line is the first, trailing spaces go unless it is the last, and a line that
is left non-empty gets one space appended unless it is the last non-empty
line. -/
def cleanLine (isFirst isLast isLastNonEmpty : Bool) (line : List Char) : List Char :=
  let l0 := line.map (fun c => if c.toNat == 9 then Char.ofNat 32 else c)
  let l1 := if isFirst then l0 else l0.dropWhile (fun c => c.toNat == 32)
  let l2 := if isLast then l1 else (l1.reverse.dropWhile (fun c => c.toNat == 32)).reverse
  if l2.isEmpty then [] else if isLastNonEmpty then l2 else l2 ++ [Char.ofNat 32]

/-- The text a raw JSX text child stands for: its lines are trimmed and
joined with single spaces, lines of white space only are dropped. -/
def cleanJsxText (raw : String) : String :=
  let lines := splitLines raw.toList
  let last := lastNonEmptyLine lines
  String.mk (lines.enum.flatMap
    (fun il => cleanLine (il.1 == 0) (il.1 + 1 == lines.length) (il.1 == last) il.2))

/-- Props of an element from its attributes, in source order; an attribute
whose value is `undefined` gives no prop, an unbound identifier is an error. -/
def evalAttrs (sc : Scope) : List (String × Expr) → Option (List (String × String))
  | [] => some []
  | (n, e) :: rest =>
    match e.eval sc, evalAttrs sc rest with
    | some (.str v), some ps => some ((n, v) :: ps)
    | some .undefined, some ps => some ps
    | _, _ => none

mutual
/-- Nodes a JSX child evaluates to: an element gives one node, text gives a
text node unless it cleans to the empty string, a comment gives none. -/
def evalJsx (sc : Scope) : Jsx → Option (List Node)
  | .element tag attrs children =>
    match evalAttrs sc attrs, evalJsxList sc children with
    | some ps, some cs => some [.elem tag ps cs]
    | _, _ => none
  | .text raw => if cleanJsxText raw = "" then some [] else some [.text (cleanJsxText raw)]
  | .comment => some []
/-- Nodes a list of JSX children evaluates to. -/
def evalJsxList (sc : Scope) : List Jsx → Option (List Node)
  | [] => some []
  | c :: cs =>
    match evalJsx sc c, evalJsxList sc cs with
    | some ns, some ms => some (ns ++ ms)
    | _, _ => none
end

/-- Statements of a function body: an assignment to a global, or the
`return` of a JSX expression. -/
inductive Stmt where
  | assignGlobal (name : String) (value : Expr)
  | ret (e : Jsx)
  deriving Repr

/-- An arrow function: its parameter names and the statements of its body. -/
structure ArrowFunction where
  params : List String
  body : List Stmt
  deriving Repr

/-- Bind parameters to arguments; a parameter without argument is
`undefined`, an argument without parameter is dropped. -/
def bindParams : List String → List JsValue → Env
  | [], _ => []
  | p :: ps, [] => (p, .undefined) :: bindParams ps []
  | p :: ps, v :: vs => (p, v) :: bindParams ps vs

/-- Run the statements of a body on the globals: the tree returned (`none`
when the body throws or returns no single element) and the globals after. -/
def execBody (moduleEnv locals : Env) : List Stmt → Env → Option Node × Env
  | [], g => (none, g)
  | .ret e :: _, g =>
    match evalJsx { locals := locals, moduleEnv := moduleEnv, globals := g } e with
    | some [n] => (some n, g)
    | _ => (none, g)
  | .assignGlobal x e :: rest, g =>
    match e.eval { locals := locals, moduleEnv := moduleEnv, globals := g } with
    | some v => execBody moduleEnv locals rest ((x, v) :: g)
    | none => (none, g)

/-- Call a function of a module with arguments, on the globals. -/
def ArrowFunction.call (f : ArrowFunction) (moduleEnv : Env) (args : List JsValue)
    (g : Env) : Option Node × Env :=
  execBody moduleEnv (bindParams f.params args) f.body g

/-- Call a function once per argument list, one call after the other, each on
the globals the call before it left. -/
def ArrowFunction.callEach (f : ArrowFunction) (moduleEnv : Env) :
    List (List JsValue) → Env → List (Option Node) × Env
  | [], g => ([], g)
  | args :: rest, g =>
    match f.call moduleEnv args g with
    | (r, g1) =>
      match ArrowFunction.callEach f moduleEnv rest g1 with
      | (rs, g2) => (r :: rs, g2)

/-- The image bindings of the module `App.jsx` (lines 2 to 6). -/
def appModule (a : Assets) : Env :=
  [("HeroImage", .str a.HeroImage), ("MidImage", .str a.MidImage),
    ("MeetTeam", .str a.MeetTeam), ("SuccessMetrics", .str a.SuccessMetrics),
    ("ContactForm", .str a.ContactForm)]

/-- The JSX expression that `App` returns (`App.jsx` lines 12 to 45), with the
raw text between the tags. -/
def appJsx : Jsx :=
  .element "div" [("className", .lit "container")] [
    .text "\n      ", .comment, .text "\n      ",
    .element "section" [("className", .lit "hero")] [
      .text "\n        ",
      .element "h1" [("className", .lit "hero-title")]
        [.text "Let's create something great together."],
      .text "\n        ",
      .element "img" [("src", .ident "HeroImage"), ("alt", .lit "Hero"),
        ("className", .lit "hero-image")] [],
      .text "\n      "],
    .text "\n\n      ", .comment, .text "\n      ",
    .element "section" [("className", .lit "who-we-are")] [
      .text "\n        ",
      .element "h2" [("className", .lit "section-title")] [.text "Who we are"],
      .text "\n        ",
      .element "p" [("className", .lit "section-description")]
        [.text "\n          We work hand-in-hand with our clients to ensure their digital\n          transformation is positioned for long-term success.\n        "],
      .text "\n        ",
      .element "img" [("src", .ident "MidImage"), ("alt", .lit "Who We Are"),
        ("className", .lit "section-image")] [],
      .text "\n      "],
    .text "\n\n      ", .comment, .text "\n      ",
    .element "section" [("className", .lit "team")] [
      .text "\n        ",
      .element "h2" [("className", .lit "section-title")]
        [.text "Meetttttt the heroes behind the magic"],
      .text "\n        ",
      .element "img" [("src", .ident "MeetTeam"), ("alt", .lit "Team"),
        ("className", .lit "team-image")] [],
      .text "\n      "],
    .text "\n\n      ", .comment, .text "\n      ",
    .element "section" [("className", .lit "success-metrics")] [
      .text "\n        ",
      .element "img" [("src", .ident "SuccessMetrics"), ("alt", .lit "Metrics"),
        ("className", .lit "metrics-image")] [],
      .text "\n      "],
    .text "\n\n      ", .comment, .text "\n      ",
    .element "section" [("className", .lit "contact-form")] [
      .text "\n        ",
      .element "h2" [("className", .lit "section-title")]
        [.text "We'd love to hear from you"],
      .text "\n        ",
      .element "img" [("src", .ident "ContactForm"), ("alt", .lit "Contact Form"),
        ("className", .lit "form-image")] [],
      .text "\n      "],
    .text "\n    "]

/-- The arrow function `App` of `App.jsx` (lines 10 to 47): no parameters, and
a body that is the single statement `return (...)`. -/
def appFunction : ArrowFunction where
  params := []
  body := [.ret appJsx]

/-- The `render` calls of a call log. -/
def renderCalls : List HostCall → List (Root × ReactElement)
  | [] => []
  | .render r e :: cs => (r, e) :: renderCalls cs
  | _ :: cs => renderCalls cs

/-- The identifiers looked up by a call log. -/
def lookups : List HostCall → List String
  | [] => []
  | .getElementById id :: cs => id :: lookups cs
  | _ :: cs => lookups cs

/-- Host document with a mount point: `<body><div id="root"></div></body>`. -/
def docWithRoot : Node :=
  .elem "body" [] [.elem "div" [("id", "root")] []]

/-- Host document without a mount point: `<body><div id="app"></div></body>`. -/
def docWithoutRoot : Node :=
  .elem "body" [] [.elem "div" [("id", "app")] []]

/-- Host document with a section of its own next to the mount point:
`<body><section></section><div id="root"></div></body>`. -/
def docWithSection : Node :=
  .elem "body" [] [.elem "section" [] [], .elem "div" [("id", "root")] []]


/-- Whether the subtree of a node has an element whose `id` prop is `id`. -/
def Node.containsId (id : String) (n : Node) : Bool :=
  n.subtree.any (fun c => c.prop "id" == some id)

/-! ## Page composition -/

/-- C1: the tree of `App` is one `div` container whose children are exactly
five `section` elements, with the class names hero, who-we-are, team,
success-metrics and contact-form in this order. -/
theorem App_five_sections (a : Assets) :
    (App a).tag = some "div" ∧ (App a).className = some "container" ∧
    (App a).children.map Node.tag =
      [some "section", some "section", some "section", some "section", some "section"] ∧
    (App a).children.map Node.className =
      [some "hero", some "who-we-are", some "team", some "success-metrics",
        some "contact-form"] ∧
    sections a = (App a).children :=
  ⟨rfl, rfl, rfl, rfl, rfl⟩

/-- C2: each of the five sections has exactly one `img` element; its `src` is
the imported handle of the section and its `alt` is the non-empty text
Hero, Who We Are, Team, Metrics, Contact Form; the `src` is non-empty as soon
as every imported handle is. -/
theorem section_images (a : Assets) :
    (sections a).map images =
      [[(some a.HeroImage, some "Hero")], [(some a.MidImage, some "Who We Are")],
        [(some a.MeetTeam, some "Team")], [(some a.SuccessMetrics, some "Metrics")],
        [(some a.ContactForm, some "Contact Form")]] ∧
    (∀ s ∈ sections a, ∀ i ∈ images s, ∃ alt, i.2 = some alt ∧ alt ≠ "") ∧
    (a.allNonEmpty → ∀ s ∈ sections a, ∀ i ∈ images s, ∃ src, i.1 = some src ∧ src ≠ "") := by
  have hs : (sections a).map images =
      [[(some a.HeroImage, some "Hero")], [(some a.MidImage, some "Who We Are")],
        [(some a.MeetTeam, some "Team")], [(some a.SuccessMetrics, some "Metrics")],
        [(some a.ContactForm, some "Contact Form")]] := rfl
  have key : ∀ s ∈ sections a, images s ∈ (sections a).map images :=
    fun s hm => List.mem_map_of_mem images hm
  rw [hs] at key
  refine ⟨hs, ?_, ?_⟩
  · intro s hm i hi
    have := key s hm
    simp only [List.mem_cons, List.mem_singleton, List.not_mem_nil, or_false] at this
    rcases this with h | h | h | h | h <;> rw [h] at hi <;>
      simp only [List.mem_singleton] at hi <;> subst hi <;>
      exact ⟨_, rfl, by decide⟩
  · rintro ⟨h1, h2, h3, h4, h5⟩ s hm i hi
    have := key s hm
    simp only [List.mem_cons, List.mem_singleton, List.not_mem_nil, or_false] at this
    rcases this with h | h | h | h | h <;> rw [h] at hi <;>
      simp only [List.mem_singleton] at hi <;> subst hi
    · exact ⟨_, rfl, h1⟩
    · exact ⟨_, rfl, h2⟩
    · exact ⟨_, rfl, h3⟩
    · exact ⟨_, rfl, h4⟩
    · exact ⟨_, rfl, h5⟩

/-- Witness of C2 at the import paths of `App.jsx` as handles. -/
theorem section_images_witness :
    sampleAssets.allNonEmpty ∧
    ∀ s ∈ sections sampleAssets, ∀ i ∈ images s, ∃ src, i.1 = some src ∧ src ≠ "" :=
  ⟨by unfold Assets.allNonEmpty; decide,
    (section_images sampleAssets).2.2 (by unfold Assets.allNonEmpty; decide)⟩

/-- C5 as stated fails: the success-metrics section has an image but neither a
heading nor a paragraph. -/
theorem not_every_section_has_heading_or_paragraph :
    ¬ ∀ s ∈ sections sampleAssets,
        s.headingsOrParagraphs ≠ [] ∧ (s.descendantsByTag "img").length = 1 := by
  intro h
  have hm : Node.elem "section" [("className", "success-metrics")]
      [.elem "img" [("src", sampleAssets.SuccessMetrics), ("alt", "Metrics"),
        ("className", "metrics-image")] []] ∈ sections sampleAssets := by
    simp [sections, App, Node.children, Node.hasTag, Node.tag]
  exact (h _ hm).1 rfl

/-- C5 amended: every section has exactly one `img`; the hero, who-we-are, team
and contact-form sections each have at least one heading or paragraph, and the
success-metrics section has none: its only child is the image. -/
theorem section_pairing (a : Assets) :
    (sections a).map (fun s => (s.descendantsByTag "img").length) = [1, 1, 1, 1, 1] ∧
    (sections a).map (fun s => (s.className, s.headingsOrParagraphs.map Node.tag)) =
      [(some "hero", [some "h1"]), (some "who-we-are", [some "h2", some "p"]),
        (some "team", [some "h2"]), (some "success-metrics", []),
        (some "contact-form", [some "h2"])] ∧
    (sectionsNamed "success-metrics" a).map (fun s => s.children.map Node.tag) =
      [[some "img"]] :=
  ⟨rfl, rfl, rfl⟩

/-- C6: the hero section has one heading, an `h1`, whose text is exactly
"Let's create something great together.". -/
theorem hero_heading (a : Assets) :
    headingsOf "hero" a = [(some "h1", "Let's create something great together.")] :=
  rfl

/-- C7: the team section has one heading, whose text is exactly
"Meetttttt the heroes behind the magic" and so contains
"heroes behind the magic". -/
theorem team_heading (a : Assets) :
    headingsOf "team" a = [(some "h2", "Meetttttt the heroes behind the magic")] ∧
    ∀ h ∈ headingsOf "team" a, "heroes behind the magic".toList <:+: h.2.toList := by
  have hs : headingsOf "team" a = [(some "h2", "Meetttttt the heroes behind the magic")] := rfl
  refine ⟨hs, ?_⟩
  intro h hh
  rw [hs, List.mem_singleton] at hh
  subst hh
  exact ⟨"Meetttttt the ".toList, [], rfl⟩

/-- C8: every call of the function `App`, whatever arguments it is given and
whatever the globals hold, returns the one tree of `App` for the imported
handles and leaves the globals as they are; so any two calls return equal
trees, and any number of calls in a row return that many copies of the tree. -/
theorem App_referentially_transparent (a : Assets) (args args2 : List JsValue)
    (g g2 : Env) (calls : List (List JsValue)) :
    appFunction.call (appModule a) args g = (some (App a), g) ∧
    (appFunction.call (appModule a) args g).1 =
      (appFunction.call (appModule a) args2 g2).1 ∧
    appFunction.callEach (appModule a) calls g =
      (List.replicate calls.length (some (App a)), g) := by
  have one : ∀ (xs : List JsValue) (e : Env),
      appFunction.call (appModule a) xs e = (some (App a), e) := fun _ _ => rfl
  refine ⟨one args g, ?_, ?_⟩
  · rw [one args g, one args2 g2]
  · induction calls with
    | nil => rfl
    | cons xs rest ih =>
      simp only [ArrowFunction.callEach, one xs g, ih, List.length_cons,
        List.replicate_succ]

/-- C9: the success-metrics section is the only section without a heading;
each of the other four sections has exactly one heading, with the non-empty
text shown. -/
theorem one_section_omits_title (a : Assets) :
    ((sections a).filter (fun s => s.headings.isEmpty)).map Node.className =
      [some "success-metrics"] ∧
    ((sections a).filter (fun s => !s.headings.isEmpty)).map
        (fun s => (s.className, s.headings.map Node.textContent)) =
      [(some "hero", ["Let's create something great together."]),
        (some "who-we-are", ["Who we are"]),
        (some "team", ["Meetttttt the heroes behind the magic"]),
        (some "contact-form", ["We'd love to hear from you"])] ∧
    ((sections a).filter (fun s => !s.headings.isEmpty)).all
        (fun s => s.headings.length == 1 && s.headings.all (fun h => h.textContent != "")) =
      true ∧
    (sections a).length = 5 :=
  ⟨rfl, rfl, rfl, rfl⟩

/-! ## Host document: paths, lookup and replacement -/

theorem modifyAt_getElem? (f : Node → Node) :
    ∀ (i : Nat) (cs : List Node), (modifyAt f i cs)[i]? = cs[i]?.map f
  | _, [] => by simp [modifyAt]
  | 0, c :: cs => by simp [modifyAt]
  | i + 1, c :: cs => by simp [modifyAt, modifyAt_getElem? f i cs]

theorem modifyAt_modifyAt (f g : Node → Node) :
    ∀ (i : Nat) (cs : List Node),
      modifyAt f i (modifyAt g i cs) = modifyAt (fun n => f (g n)) i cs
  | _, [] => by simp [modifyAt]
  | 0, c :: cs => by simp [modifyAt]
  | i + 1, c :: cs => by simp [modifyAt, modifyAt_modifyAt f g i cs]

theorem Node.nodeAt_setChildren (ks : List Node) :
    ∀ (p : Path) (doc : Node) (t : String) (ps : List (String × String)) (cs : List Node),
      doc.nodeAt p = some (.elem t ps cs) →
      (doc.setChildren p ks).nodeAt p = some (.elem t ps ks)
  | [], doc, t, ps, cs, h => by
    simp only [Node.nodeAt, Option.some.injEq] at h
    subst h
    rfl
  | i :: p, .text s, t, ps, cs, h => by simp [Node.nodeAt] at h
  | i :: p, .elem t0 ps0 cs0, t, ps, cs, h => by
    simp only [Node.nodeAt] at h
    simp only [Node.setChildren, Node.nodeAt, modifyAt_getElem?]
    cases hc : cs0[i]? with
    | none => simp [hc] at h
    | some c =>
      simp only [hc] at h
      simpa using Node.nodeAt_setChildren ks p c t ps cs h

theorem Node.setChildren_setChildren (ks ks2 : List Node) :
    ∀ (p : Path) (doc : Node),
      (doc.setChildren p ks2).setChildren p ks = doc.setChildren p ks
  | [], .text s => rfl
  | [], .elem t ps cs => rfl
  | i :: p, .text s => rfl
  | i :: p, .elem t ps cs => by
    simp only [Node.setChildren, modifyAt_modifyAt]
    have hf : (fun n => Node.setChildren p ks (Node.setChildren p ks2 n)) =
        Node.setChildren p ks :=
      funext (fun n => Node.setChildren_setChildren ks ks2 p n)
    rw [hf]

mutual
theorem Node.findId_sound (id : String) :
    ∀ (n : Node) (p : Path), n.findId id = some p →
      ∃ t ps cs, n.nodeAt p = some (.elem t ps cs) ∧ ps.lookup "id" = some id
  | .text s, p, h => by simp [Node.findId] at h
  | .elem t ps cs, p, h => by
    simp only [Node.findId] at h
    split at h
    · rename_i hid
      simp only [Option.some.injEq] at h
      subst h
      exact ⟨t, ps, cs, rfl, hid⟩
    · obtain ⟨j, q, c, hp, hc, hq⟩ := Node.findIdList_sound id cs 0 p h
      subst hp
      simpa [Node.nodeAt, hc] using hq
theorem Node.findIdList_sound (id : String) :
    ∀ (cs : List Node) (i : Nat) (p : Path), Node.findIdList id i cs = some p →
      ∃ j q c, p = (i + j) :: q ∧ cs[j]? = some c ∧
        ∃ t ps ks, c.nodeAt q = some (.elem t ps ks) ∧ ps.lookup "id" = some id
  | [], i, p, h => by simp [Node.findIdList] at h
  | c :: cs, i, p, h => by
    simp only [Node.findIdList] at h
    split at h
    · rename_i q hq
      simp only [Option.some.injEq] at h
      exact ⟨0, q, c, by simp [← h], by simp, Node.findId_sound id c q hq⟩
    · obtain ⟨j, q, d, hp, hd, hq⟩ := Node.findIdList_sound id cs (i + 1) p h
      exact ⟨j + 1, q, d, by rw [hp]; congr 1; omega, by simpa using hd, hq⟩
end

mutual
theorem Node.findId_eq_none_iff (id : String) :
    ∀ (n : Node), n.findId id = none ↔ n.containsId id = false
  | .text s => by simp [Node.findId, Node.containsId, Node.subtree, Node.prop]
  | .elem t ps cs => by
    have ih := Node.findIdList_eq_none_iff id cs 0
    have hp : Node.prop "id" (.elem t ps cs) = ps.lookup "id" := rfl
    simp only [Node.findId, Node.containsId, Node.subtree, List.any_cons, hp,
      Bool.or_eq_false_iff]
    split
    · rename_i hid
      simp [hid]
    · rename_i hid
      rw [ih]
      simp [hid]
theorem Node.findIdList_eq_none_iff (id : String) :
    ∀ (cs : List Node) (i : Nat),
      Node.findIdList id i cs = none ↔
        (Node.subtreeList cs).any (fun c => c.prop "id" == some id) = false
  | [], i => by simp [Node.findIdList, Node.subtreeList]
  | c :: cs, i => by
    have ih1 := Node.findId_eq_none_iff id c
    have ih2 := Node.findIdList_eq_none_iff id cs (i + 1)
    simp only [Node.containsId] at ih1
    simp only [Node.findIdList, Node.subtreeList, List.any_append, Bool.or_eq_false_iff]
    rw [← ih1, ← ih2]
    split
    · rename_i q hq
      simp [hq]
    · rename_i hq
      simp [hq]
end

theorem Node.findId_isSome_of_containsId (id : String) (n : Node)
    (h : n.containsId id = true) : ∃ p, n.findId id = some p := by
  cases hf : n.findId id with
  | some p => exact ⟨p, rfl⟩
  | none =>
    rw [(Node.findId_eq_none_iff id n).1 hf] at h
    cases h

theorem countP_subtreeList_modifyAt (q : Node → Bool) (f g : Node → Node) (k : Nat) :
    ∀ (i : Nat) (cs : List Node) (c : Node), cs[i]? = some c →
      (Node.subtree (f c)).countP q = (Node.subtree (g c)).countP q + k →
      (Node.subtreeList (modifyAt f i cs)).countP q =
        (Node.subtreeList (modifyAt g i cs)).countP q + k
  | _, [], c, h, _ => by simp at h
  | 0, d :: cs, c, h, hk => by
    simp only [List.getElem?_cons_zero, Option.some.injEq] at h
    subst h
    simp only [modifyAt, Node.subtreeList, List.countP_append, hk]
    omega
  | i + 1, d :: cs, c, h, hk => by
    simp only [List.getElem?_cons_succ] at h
    have ih := countP_subtreeList_modifyAt q f g k i cs c h hk
    simp only [modifyAt, Node.subtreeList, List.countP_append, ih]
    omega

theorem Node.countTag_setChildren (tg : String) (ks : List Node) :
    ∀ (p : Path) (doc : Node) (t : String) (ps : List (String × String)) (cs : List Node),
      doc.nodeAt p = some (.elem t ps cs) →
      (doc.setChildren p ks).countTag tg =
        (doc.setChildren p []).countTag tg + (Node.subtreeList ks).countP (Node.hasTag tg)
  | [], doc, t, ps, cs, h => by
    simp only [Node.nodeAt, Option.some.injEq] at h
    subst h
    have e : Node.hasTag tg (.elem t ps ks) = Node.hasTag tg (.elem t ps []) := rfl
    simp only [Node.setChildren, Node.countTag, Node.subtree, Node.subtreeList,
      List.countP_cons, List.countP_nil, e]
    omega
  | i :: p, .text s, t, ps, cs, h => by simp [Node.nodeAt] at h
  | i :: p, .elem t0 ps0 cs0, t, ps, cs, h => by
    simp only [Node.nodeAt] at h
    cases hc : cs0[i]? with
    | none => simp [hc] at h
    | some c =>
      simp only [hc] at h
      have ih := Node.countTag_setChildren tg ks p c t ps cs h
      simp only [Node.countTag] at ih
      have := countP_subtreeList_modifyAt (Node.hasTag tg) (Node.setChildren p ks)
        (Node.setChildren p []) _ i cs0 c hc ih
      have e : Node.hasTag tg (.elem t0 ps0 (modifyAt (Node.setChildren p ks) i cs0)) =
          Node.hasTag tg (.elem t0 ps0 (modifyAt (Node.setChildren p []) i cs0)) := rfl
      simp only [Node.setChildren, Node.countTag, Node.subtree, List.countP_cons, e]
      omega

/-! ## Mount shim -/

theorem mount_of_findId_some (a : Assets) (doc : Node) (p : Path)
    (h : doc.findId "root" = some p) :
    mount a doc =
      (.ok (),
        { doc := doc.setChildren p [App a]
          calls := [.getElementById "root", .createRoot (some p),
            .render ⟨p⟩ (.strictMode [.app])] }) := by
  simp [mount, main, getElementById, createRoot, Root.render, h, mainElement, hostNodes,
    hostNodesList]

theorem mount_of_findId_none (a : Assets) (doc : Node) (h : doc.findId "root" = none) :
    mount a doc =
      (.error .targetNotDomElement,
        { doc := doc, calls := [.getElementById "root", .createRoot none] }) := by
  simp [mount, main, getElementById, createRoot, h]

/-- C3: on a host document without an element of id root the mount shim ends
in the fatal error, has made no render call and leaves the document as it was;
and whenever the mount shim ends in an error, the host document has no element
of id root. -/
theorem mount_fails_iff_no_root (a : Assets) (doc : Node) :
    (doc.containsId "root" = false →
      (mount a doc).1 = .error .targetNotDomElement ∧ (mount a doc).2.doc = doc ∧
        renderCalls (mount a doc).2.calls = []) ∧
    (∀ e, (mount a doc).1 = .error e → doc.containsId "root" = false) := by
  constructor
  · intro h
    rw [mount_of_findId_none a doc ((Node.findId_eq_none_iff "root" doc).2 h)]
    exact ⟨rfl, rfl, rfl⟩
  · intro e he
    cases hf : doc.findId "root" with
    | none => exact (Node.findId_eq_none_iff "root" doc).1 hf
    | some p =>
      rw [mount_of_findId_some a doc p hf] at he
      cases he

/-- Witness of C3 at `<body><div id="app"></div></body>`. -/
theorem mount_fails_iff_no_root_witness :
    docWithoutRoot.containsId "root" = false ∧
    (mount sampleAssets docWithoutRoot).1 = .error .targetNotDomElement ∧
    (mount sampleAssets docWithoutRoot).2.doc = docWithoutRoot ∧
    renderCalls (mount sampleAssets docWithoutRoot).2.calls = [] :=
  ⟨by decide, (mount_fails_iff_no_root sampleAssets docWithoutRoot).1 (by decide)⟩

/-- C4 as stated fails: a host document with a section of its own next to the
mount point has six section elements after the mount, not five. -/
theorem mount_keeps_foreign_sections :
    ¬ ∀ doc : Node, doc.containsId "root" = true →
        (mount sampleAssets doc).1 = .ok () ∧
        (mount sampleAssets doc).2.doc.countTag "section" = 5 := by
  intro h
  have h6 : (mount sampleAssets docWithSection).2.doc.countTag "section" = 6 := by decide
  have h5 := (h docWithSection (by decide)).2
  rw [h6] at h5
  cases h5

/-- C4 amended: on a host document with an element of id root the mount shim
succeeds, and afterwards the only child of the root element is the tree of
`App`, so that the section elements under the root element are exactly the
five sections of `App` in their order; the document as a whole has these five
section elements on top of those it has outside the content of the root
element. -/
theorem mount_attaches_App (a : Assets) (doc : Node) (h : doc.containsId "root" = true) :
    (mount a doc).1 = .ok () ∧
    ∃ p r, doc.findId "root" = some p ∧ (mount a doc).2.doc.nodeAt p = some r ∧
      r.prop "id" = some "root" ∧ r.children = [App a] ∧
      r.descendantsByTag "section" = sections a ∧
      (r.descendantsByTag "section").map Node.className =
        [some "hero", some "who-we-are", some "team", some "success-metrics",
          some "contact-form"] ∧
      (mount a doc).2.doc.countTag "section" =
        (doc.setChildren p []).countTag "section" + 5 := by
  obtain ⟨p, hp⟩ := Node.findId_isSome_of_containsId "root" doc h
  obtain ⟨t, ps, cs, hn, hid⟩ := Node.findId_sound "root" doc p hp
  rw [mount_of_findId_some a doc p hp]
  refine ⟨rfl, p, .elem t ps [App a], hp, ?_, hid, rfl, rfl, rfl, ?_⟩
  · exact Node.nodeAt_setChildren [App a] p doc t ps cs hn
  · exact Node.countTag_setChildren "section" [App a] p doc t ps cs hn

/-- Witness of C4 amended at `<body><div id="root"></div></body>`. -/
theorem mount_attaches_App_witness :
    docWithRoot.containsId "root" = true ∧
    (mount sampleAssets docWithRoot).1 = .ok () ∧
    ∃ p r, docWithRoot.findId "root" = some p ∧
      (mount sampleAssets docWithRoot).2.doc.nodeAt p = some r ∧
      r.prop "id" = some "root" ∧ r.children = [App sampleAssets] ∧
      r.descendantsByTag "section" = sections sampleAssets ∧
      (r.descendantsByTag "section").map Node.className =
        [some "hero", some "who-we-are", some "team", some "success-metrics",
          some "contact-form"] ∧
      (mount sampleAssets docWithRoot).2.doc.countTag "section" =
        (docWithRoot.setChildren p []).countTag "section" + 5 :=
  ⟨by decide, mount_attaches_App sampleAssets docWithRoot (by decide)⟩

/-- C10: the mount shim looks up the identifier root and no other, and makes
at most one render call. On a host document with an element of id root it
succeeds with three host calls: the lookup of root, the creation of a root for
the element found, and one render call on that root whose argument is the
strict-mode wrapper with the single child `<App />`. That one call attaches
the tree of `App`: afterwards the root element, with its tag and props as
before, has the tree of `App` as its only child, and the document differs from
the document before the mount in nothing but the content of the root
element. -/
theorem main_attaches_once (a : Assets) (doc : Node) :
    lookups (mount a doc).2.calls = ["root"] ∧
    (renderCalls (mount a doc).2.calls).length ≤ 1 ∧
    (doc.containsId "root" = true →
      ∃ p t ps cs, doc.findId "root" = some p ∧
        doc.nodeAt p = some (.elem t ps cs) ∧ ps.lookup "id" = some "root" ∧
        (mount a doc).1 = .ok () ∧
        (mount a doc).2.calls =
          [.getElementById "root", .createRoot (some p),
            .render ⟨p⟩ (.strictMode [.app])] ∧
        renderCalls (mount a doc).2.calls = [(⟨p⟩, .strictMode [.app])] ∧
        (mount a doc).2.doc.nodeAt p = some (.elem t ps [App a]) ∧
        (mount a doc).2.doc = doc.setChildren p [App a] ∧
        (mount a doc).2.doc.setChildren p [] = doc.setChildren p []) := by
  refine ⟨?_, ?_, ?_⟩
  · cases hf : doc.findId "root" with
    | none => rw [mount_of_findId_none a doc hf]; rfl
    | some p => rw [mount_of_findId_some a doc p hf]; rfl
  · cases hf : doc.findId "root" with
    | none => rw [mount_of_findId_none a doc hf]; exact Nat.zero_le 1
    | some p => rw [mount_of_findId_some a doc p hf]; exact Nat.le_refl 1
  · intro h
    obtain ⟨p, hp⟩ := Node.findId_isSome_of_containsId "root" doc h
    obtain ⟨t, ps, cs, hn, hid⟩ := Node.findId_sound "root" doc p hp
    rw [mount_of_findId_some a doc p hp]
    exact ⟨p, t, ps, cs, hp, hn, hid, rfl, rfl, rfl,
      Node.nodeAt_setChildren [App a] p doc t ps cs hn, rfl,
      Node.setChildren_setChildren [] [App a] p doc⟩

/-- Witness of C10 at `<body><section></section><div id="root"></div></body>`. -/
theorem main_attaches_once_witness :
    docWithSection.containsId "root" = true ∧
    ∃ p t ps cs, docWithSection.findId "root" = some p ∧
      docWithSection.nodeAt p = some (.elem t ps cs) ∧ ps.lookup "id" = some "root" ∧
      (mount sampleAssets docWithSection).1 = .ok () ∧
      (mount sampleAssets docWithSection).2.calls =
        [.getElementById "root", .createRoot (some p),
          .render ⟨p⟩ (.strictMode [.app])] ∧
      renderCalls (mount sampleAssets docWithSection).2.calls =
        [(⟨p⟩, .strictMode [.app])] ∧
      (mount sampleAssets docWithSection).2.doc.nodeAt p =
        some (.elem t ps [App sampleAssets]) ∧
      (mount sampleAssets docWithSection).2.doc =
        docWithSection.setChildren p [App sampleAssets] ∧
      (mount sampleAssets docWithSection).2.doc.setChildren p [] =
        docWithSection.setChildren p [] :=
  ⟨by decide, (main_attaches_once sampleAssets docWithSection).2.2 (by decide)⟩

end PTon
